import Mathlib

/-!
# Verification of the mpcs57200 repository

A shallow embedding of the two programs of the repository and proofs about
them.

* `Hangman` embeds `src/hw5-1/hangman.py`: the game-session state held in
  `st.session_state`, the functions `check_game_status`, `make_guess`,
  `generate_word_with_ai` and `reset_game`, and the guard the UI places
  around `make_guess` (the guessing controls are only rendered while the
  game is not over).
* `SearchAgent` embeds `src/hw5-2/search.py`: the `calculator` and
  `get_current_time` tools, the routing predicate `should_continue`, and
  the two-node LangGraph loop compiled by `create_agent` and driven by
  `run_query` under `recursion_limit 10`.

Strings that the programs manipulate letter-by-letter are embedded as
`List Char`; Python sets of letters become `Finset Char`.  External
collaborators (the LLM, the random generator, the web-search service, the
wall clock, Python `eval`) are parameters of the embedded functions, so
that theorems quantify over every behaviour of those collaborators.
-/

namespace Hangman

/-- Lemma: `Char.toUpper` is idempotent: the image of Lean's (and, on this ASCII
domain, Python's) uppercase map is fixed by a second application. -/
theorem toUpper_toUpper (c : Char) : c.toUpper.toUpper = c.toUpper := by
  by_cases h : 97 ≤ c.toNat ∧ c.toNat ≤ 122
  · obtain ⟨h1, h2⟩ := h
    have hofn : Char.ofNat c.toNat = c := Char.ofNat_toNat c
    set n := c.toNat with hn
    rw [← hofn]
    interval_cases n <;> decide
  · have hself : c.toUpper = c := by
      unfold Char.toUpper
      simp only [ge_iff_le]
      rw [if_neg h]
    rw [hself, hself]

/-- The session state of one Hangman game: the fields of
`st.session_state` that `make_guess` and `check_game_status` touch
(hangman.py lines 79–88).  `game_started` is omitted: it only gates the
initial rendering and is never read by the game logic. -/
structure GameState where
  secret_word : List Char
  guessed_letters : Finset Char
  incorrect_guesses : List Char
  game_over : Bool
  won : Bool
deriving DecidableEq

/-- Embeds `check_game_status` (hangman.py lines 146–158): if every letter of the
secret is guessed, mark the game over and won; otherwise, if at least 6
incorrect guesses have accumulated, mark the game over and not won;
otherwise leave the state alone.  The two early `return`s make the second
test an `elif` of the first. -/
def check_game_status (s : GameState) : GameState :=
  if s.secret_word.all (fun c => decide (c ∈ s.guessed_letters)) then
    { s with game_over := true, won := true }
  else if 6 ≤ s.incorrect_guesses.length then
    { s with game_over := true, won := false }
  else
    s

/-- Embeds `make_guess` (hangman.py lines 160–172): uppercase the letter; if it
was already guessed, return without change; otherwise add it to
`guessed_letters`, append it to `incorrect_guesses` when it does not occur
in the secret, and re-evaluate the game status. -/
def make_guess (s : GameState) (letter : Char) : GameState :=
  let l := letter.toUpper
  if l ∈ s.guessed_letters then
    s
  else
    let s1 : GameState := { s with guessed_letters := insert l s.guessed_letters }
    let s2 : GameState :=
      if l ∈ s1.secret_word then s1
      else { s1 with incorrect_guesses := s1.incorrect_guesses ++ [l] }
    check_game_status s2

/-- The state created when a new game starts (hangman.py lines 191–198):
a freshly generated secret, no guesses, no misses, game not over. -/
def initial_state (secret : List Char) : GameState :=
  { secret_word := secret
    guessed_letters := ∅
    incorrect_guesses := []
    game_over := false
    won := false }

/-- The three phases the spec distinguishes for a session. -/
inductive GameStatus where
  | InProgress
  | Won
  | Lost
deriving DecidableEq

/-- The status of a session, as the UI reads it off the two booleans
(hangman.py lines 238–243): the game is in progress until `game_over` is
set, and then `won` separates victory from defeat. -/
def status (s : GameState) : GameStatus :=
  if s.game_over then (if s.won then GameStatus.Won else GameStatus.Lost)
  else GameStatus.InProgress

/-- One user-level guess event.  The UI renders the letter buttons and the
text input only in the `else` branch of `if st.session_state.game_over`
(hangman.py lines 238–289), so `make_guess` is invoked only while the game
is not over; a guess arriving at a finished game leaves the state alone. -/
def app_guess (s : GameState) (letter : Char) : GameState :=
  if s.game_over then s else make_guess s letter

/-- The session states reachable from a fresh game with the given secret,
under any sequence of user-level guess events. -/
inductive Reachable (secret : List Char) : GameState → Prop where
  | init : Reachable secret (initial_state secret)
  | step (s : GameState) (letter : Char) :
      Reachable secret s → Reachable secret (app_guess s letter)

/-- A secret the word source can deliver (spec §3, §4.2): 5 to 10
uppercase letters. -/
def ValidSecret (secret : List Char) : Prop :=
  5 ≤ secret.length ∧ secret.length ≤ 10 ∧
    ∀ c ∈ secret, 'A' ≤ c ∧ c ≤ 'Z'

instance : DecidablePred ValidSecret := fun _ =>
  inferInstanceAs (Decidable (_ ∧ _ ∧ _))

/-- The inductive invariant of a session: the secret is fixed, guessed
letters are uppercase images, the misses are exactly the guessed letters
outside the secret (without repetition, at most 6, fewer than 6 while the
game runs), victory is equivalent to full coverage, and defeat implies 6
misses. -/
structure Inv (secret : List Char) (s : GameState) : Prop where
  secret_eq : s.secret_word = secret
  guessed_upper : ∀ c ∈ s.guessed_letters, c.toUpper = c
  miss_nodup : s.incorrect_guesses.Nodup
  miss_iff : ∀ c, c ∈ s.incorrect_guesses ↔ (c ∈ s.guessed_letters ∧ c ∉ s.secret_word)
  miss_le : s.incorrect_guesses.length ≤ 6
  miss_lt : s.game_over = false → s.incorrect_guesses.length < 6
  won_iff : (s.game_over = true ∧ s.won = true) ↔ ∀ c ∈ s.secret_word, c ∈ s.guessed_letters
  lost_misses : s.game_over = true → s.won = false → 6 ≤ s.incorrect_guesses.length

/-- Unfolding equation for `make_guess`: the `let`-bound intermediate
states written out. -/
theorem make_guess_eq (s : GameState) (letter : Char) :
    make_guess s letter =
      if letter.toUpper ∈ s.guessed_letters then s
      else check_game_status
        (if letter.toUpper ∈ s.secret_word then
          { s with guessed_letters := insert letter.toUpper s.guessed_letters }
         else
          { s with guessed_letters := insert letter.toUpper s.guessed_letters,
                   incorrect_guesses := s.incorrect_guesses ++ [letter.toUpper] }) := rfl

/-- A fresh session with a nonempty secret satisfies the invariant. -/
theorem Inv_initial (secret : List Char) (hne : secret ≠ []) :
    Inv secret (initial_state secret) where
  secret_eq := rfl
  guessed_upper := by intro c hc; simp [initial_state] at hc
  miss_nodup := List.nodup_nil
  miss_iff := by intro c; simp [initial_state]
  miss_le := by simp [initial_state]
  miss_lt := by intro _; simp [initial_state]
  won_iff := by
    constructor
    · rintro ⟨hg, _⟩; exact absurd hg (by simp [initial_state])
    · intro h
      obtain ⟨c, hc⟩ := List.exists_mem_of_ne_nil secret hne
      exact absurd (h c hc) (by simp [initial_state])
  lost_misses := by intro hg; exact absurd hg (by simp [initial_state])

/-- Lemma: `check_game_status` re-establishes the invariant from the parts of it
that `make_guess` maintains directly, starting from a running game. -/
theorem Inv_check_game_status (secret : List Char) (s : GameState)
    (hgo : s.game_over = false)
    (h1 : s.secret_word = secret)
    (h2 : ∀ c ∈ s.guessed_letters, c.toUpper = c)
    (h3 : s.incorrect_guesses.Nodup)
    (h4 : ∀ c, c ∈ s.incorrect_guesses ↔ (c ∈ s.guessed_letters ∧ c ∉ s.secret_word))
    (h5 : s.incorrect_guesses.length ≤ 6) :
    Inv secret (check_game_status s) := by
  unfold check_game_status
  by_cases hcov : s.secret_word.all (fun c => decide (c ∈ s.guessed_letters)) = true
  · rw [if_pos hcov]
    have hcov' : ∀ c ∈ s.secret_word, c ∈ s.guessed_letters := by
      simpa using hcov
    exact
      { secret_eq := h1
        guessed_upper := h2
        miss_nodup := h3
        miss_iff := h4
        miss_le := h5
        miss_lt := fun h => Bool.noConfusion h
        won_iff := ⟨fun _ => hcov', fun _ => ⟨rfl, rfl⟩⟩
        lost_misses := fun _ hw => Bool.noConfusion hw }
  · rw [if_neg hcov]
    have hncov : ¬ ∀ c ∈ s.secret_word, c ∈ s.guessed_letters := by
      simpa using hcov
    by_cases hlen : 6 ≤ s.incorrect_guesses.length
    · rw [if_pos hlen]
      exact
        { secret_eq := h1
          guessed_upper := h2
          miss_nodup := h3
          miss_iff := h4
          miss_le := h5
          miss_lt := fun h => Bool.noConfusion h
          won_iff := ⟨fun h => absurd h.2 (fun hw => Bool.noConfusion hw),
            fun h => absurd h hncov⟩
          lost_misses := fun _ _ => hlen }
    · rw [if_neg hlen]
      exact
        { secret_eq := h1
          guessed_upper := h2
          miss_nodup := h3
          miss_iff := h4
          miss_le := h5
          miss_lt := fun _ => by omega
          won_iff := ⟨fun h => absurd (hgo ▸ h.1) (fun hw => Bool.noConfusion hw),
            fun h => absurd h hncov⟩
          lost_misses := fun hg => absurd (hgo ▸ hg) (fun hw => Bool.noConfusion hw) }

/-- The invariant is preserved by every user-level guess event. -/
theorem Inv_app_guess (secret : List Char) (s : GameState) (letter : Char)
    (h : Inv secret s) : Inv secret (app_guess s letter) := by
  unfold app_guess
  by_cases hgo : s.game_over = true
  · rw [if_pos hgo]; exact h
  · rw [if_neg hgo]
    have hgo' : s.game_over = false := by simpa using hgo
    rw [make_guess_eq]
    by_cases hmem : letter.toUpper ∈ s.guessed_letters
    · rw [if_pos hmem]; exact h
    · rw [if_neg hmem]
      by_cases hsec : letter.toUpper ∈ s.secret_word
      · rw [if_pos hsec]
        refine Inv_check_game_status secret _ hgo' h.secret_eq ?_ h.miss_nodup ?_ h.miss_le
        · intro c hc
          rcases Finset.mem_insert.mp hc with hceq | hold
          · rw [hceq]; exact toUpper_toUpper letter
          · exact h.guessed_upper c hold
        · intro c
          constructor
          · intro hcm
            obtain ⟨hg, hns⟩ := (h.miss_iff c).mp hcm
            exact ⟨Finset.mem_insert_of_mem hg, hns⟩
          · rintro ⟨hg, hns⟩
            rcases Finset.mem_insert.mp hg with hceq | hold
            · exact absurd hsec (hceq ▸ hns)
            · exact (h.miss_iff c).mpr ⟨hold, hns⟩
      · rw [if_neg hsec]
        have hnotmiss : letter.toUpper ∉ s.incorrect_guesses := fun hm =>
          absurd ((h.miss_iff _).mp hm).1 hmem
        refine Inv_check_game_status secret _ hgo' h.secret_eq ?_ ?_ ?_ ?_
        · intro c hc
          rcases Finset.mem_insert.mp hc with hceq | hold
          · rw [hceq]; exact toUpper_toUpper letter
          · exact h.guessed_upper c hold
        · exact (List.nodup_append_comm.mp
            (List.nodup_cons.mpr ⟨hnotmiss, h.miss_nodup⟩))
        · intro c
          constructor
          · intro hcm
            rcases List.mem_append.mp hcm with hold | hnew
            · obtain ⟨hg, hns⟩ := (h.miss_iff c).mp hold
              exact ⟨Finset.mem_insert_of_mem hg, hns⟩
            · have hceq : c = letter.toUpper := List.mem_singleton.mp hnew
              exact ⟨hceq ▸ Finset.mem_insert_self _ _, hceq ▸ hsec⟩
          · rintro ⟨hg, hns⟩
            rcases Finset.mem_insert.mp hg with hceq | hold
            · exact List.mem_append.mpr (Or.inr (List.mem_singleton.mpr hceq))
            · exact List.mem_append.mpr (Or.inl ((h.miss_iff c).mpr ⟨hold, hns⟩))
        · have := h.miss_lt hgo'
          simp only [List.length_append, List.length_singleton]
          omega

/-- Every reachable state of a session with a nonempty secret satisfies
the invariant. -/
theorem reachable_inv (secret : List Char) (s : GameState) (hne : secret ≠ [])
    (hr : Reachable secret s) : Inv secret s := by
  induction hr with
  | init => exact Inv_initial secret hne
  | step s letter _ ih => exact Inv_app_guess secret s letter ih

/-- Under the invariant, the session reads `Won` exactly when the guessed
set covers the secret. -/
theorem status_won_iff {secret : List Char} {s : GameState} (hinv : Inv secret s) :
    status s = GameStatus.Won ↔ ∀ c ∈ s.secret_word, c ∈ s.guessed_letters := by
  constructor
  · intro h
    apply hinv.won_iff.mp
    unfold status at h
    cases hgo : s.game_over with
    | false => rw [hgo] at h; simp at h
    | true =>
      cases hw : s.won with
      | false => rw [hgo, hw] at h; simp at h
      | true => exact ⟨rfl, rfl⟩
  · intro hcov
    obtain ⟨hgo, hw⟩ := hinv.won_iff.mpr hcov
    unfold status
    rw [hgo, hw]
    simp

/-- Under the invariant, the session reads `Lost` exactly when 6 misses
have accumulated and it does not read `Won`. -/
theorem status_lost_iff {secret : List Char} {s : GameState} (hinv : Inv secret s) :
    status s = GameStatus.Lost ↔
      (6 ≤ s.incorrect_guesses.length ∧ status s ≠ GameStatus.Won) := by
  constructor
  · intro h
    have hflags : s.game_over = true ∧ s.won = false := by
      unfold status at h
      cases hgo : s.game_over with
      | false => rw [hgo] at h; simp at h
      | true =>
        cases hw : s.won with
        | true => rw [hgo, hw] at h; simp at h
        | false => exact ⟨rfl, rfl⟩
    refine ⟨hinv.lost_misses hflags.1 hflags.2, ?_⟩
    rw [h]
    decide
  · rintro ⟨hlen, hnw⟩
    have hgo : s.game_over = true := by
      by_contra hc
      have hgo' : s.game_over = false := by simpa using hc
      have := hinv.miss_lt hgo'
      omega
    have hw : s.won = false := by
      cases hw : s.won with
      | false => rfl
      | true =>
        exfalso
        apply hnw
        unfold status
        rw [hgo, hw]
        simp
    unfold status
    rw [hgo, hw]
    simp

/-- C1: at every reachable Hangman session state, the status is `Won` iff
every letter of the secret is in the guessed set, the status is `Lost` iff
at least 6 misses have accumulated and the status is not `Won`, and
exactly one of `InProgress`, `Won`, `Lost` holds. -/
theorem C1_status_invariant (secret : List Char) (s : GameState)
    (hsec : ValidSecret secret) (hr : Reachable secret s) :
    (status s = GameStatus.Won ↔ ∀ c ∈ s.secret_word, c ∈ s.guessed_letters) ∧
    (status s = GameStatus.Lost ↔
      (6 ≤ s.incorrect_guesses.length ∧ status s ≠ GameStatus.Won)) ∧
    ((status s = GameStatus.InProgress ∧
        status s ≠ GameStatus.Won ∧ status s ≠ GameStatus.Lost) ∨
     (status s ≠ GameStatus.InProgress ∧
        status s = GameStatus.Won ∧ status s ≠ GameStatus.Lost) ∨
     (status s ≠ GameStatus.InProgress ∧
        status s ≠ GameStatus.Won ∧ status s = GameStatus.Lost)) := by
  have hne : secret ≠ [] := by
    intro h
    rw [h] at hsec
    exact absurd hsec.1 (by decide)
  have hinv := reachable_inv secret s hne hr
  refine ⟨status_won_iff hinv, status_lost_iff hinv, ?_⟩
  cases h : status s with
  | InProgress => exact Or.inl ⟨rfl, by decide, by decide⟩
  | Won => exact Or.inr (Or.inl ⟨by decide, rfl, by decide⟩)
  | Lost => exact Or.inr (Or.inr ⟨by decide, by decide, rfl⟩)

/-- The standard example secret used by the spec's test properties. -/
def pySecret : List Char := ['P', 'Y', 'T', 'H', 'O', 'N']

/-- Witness for C1 at a concrete reachable state. -/
theorem C1_status_invariant_witness :
    (status (initial_state pySecret) = GameStatus.Won ↔
      ∀ c ∈ (initial_state pySecret).secret_word,
        c ∈ (initial_state pySecret).guessed_letters) ∧
    (status (initial_state pySecret) = GameStatus.Lost ↔
      (6 ≤ (initial_state pySecret).incorrect_guesses.length ∧
        status (initial_state pySecret) ≠ GameStatus.Won)) ∧
    ((status (initial_state pySecret) = GameStatus.InProgress ∧
        status (initial_state pySecret) ≠ GameStatus.Won ∧
        status (initial_state pySecret) ≠ GameStatus.Lost) ∨
     (status (initial_state pySecret) ≠ GameStatus.InProgress ∧
        status (initial_state pySecret) = GameStatus.Won ∧
        status (initial_state pySecret) ≠ GameStatus.Lost) ∨
     (status (initial_state pySecret) ≠ GameStatus.InProgress ∧
        status (initial_state pySecret) ≠ GameStatus.Won ∧
        status (initial_state pySecret) = GameStatus.Lost)) :=
  C1_status_invariant pySecret (initial_state pySecret) (by decide) Reachable.init

/-- C2: re-guessing an already-guessed letter is an idempotent no-op: the
whole state, and in particular the guessed set, the misses list and the
status, are unchanged; no double-count in misses. -/
theorem C2_repeat_guess_noop (secret : List Char) (s : GameState) (letter : Char)
    (hne : secret ≠ []) (hr : Reachable secret s)
    (hmem : letter ∈ s.guessed_letters) :
    make_guess s letter = s ∧
    (make_guess s letter).guessed_letters = s.guessed_letters ∧
    (make_guess s letter).incorrect_guesses = s.incorrect_guesses ∧
    status (make_guess s letter) = status s := by
  have hinv := reachable_inv secret s hne hr
  have hup : letter.toUpper = letter := hinv.guessed_upper letter hmem
  have hmem' : letter.toUpper ∈ s.guessed_letters := by rw [hup]; exact hmem
  have heq : make_guess s letter = s := by rw [make_guess_eq, if_pos hmem']
  exact ⟨heq, by rw [heq], by rw [heq], by rw [heq]⟩

/-- Witness for C2: after guessing P against the secret PYTHON, guessing P
again changes nothing. -/
theorem C2_repeat_guess_noop_witness :
    make_guess (app_guess (initial_state pySecret) 'P') 'P' =
      app_guess (initial_state pySecret) 'P' ∧
    (make_guess (app_guess (initial_state pySecret) 'P') 'P').guessed_letters =
      (app_guess (initial_state pySecret) 'P').guessed_letters ∧
    (make_guess (app_guess (initial_state pySecret) 'P') 'P').incorrect_guesses =
      (app_guess (initial_state pySecret) 'P').incorrect_guesses ∧
    status (make_guess (app_guess (initial_state pySecret) 'P') 'P') =
      status (app_guess (initial_state pySecret) 'P') :=
  C2_repeat_guess_noop pySecret (app_guess (initial_state pySecret) 'P') 'P'
    (by decide) (Reachable.step _ 'P' Reachable.init) (by decide)

/-- Folding a sequence of user-level guess events over a session. -/
def apply_guesses (s : GameState) (letters : List Char) : GameState :=
  letters.foldl app_guess s

/-- C3: the status never reverts: once a session is `Won` it stays `Won`
under every further sequence of guesses, and once `Lost` it stays `Lost`;
hence along any guess sequence the status leaves `InProgress` at most
once. -/
theorem C3_status_monotonic (s : GameState) (letters : List Char) :
    (status s = GameStatus.Won → status (apply_guesses s letters) = GameStatus.Won) ∧
    (status s = GameStatus.Lost → status (apply_guesses s letters) = GameStatus.Lost) := by
  have hstep : ∀ (t : GameState) (c : Char), t.game_over = true → app_guess t c = t := by
    intro t c h
    unfold app_guess
    rw [if_pos h]
  have main : ∀ (l : List Char) (t : GameState), t.game_over = true →
      apply_guesses t l = t := by
    intro l
    induction l with
    | nil => intro t _; rfl
    | cons c cs ih =>
      intro t h
      show apply_guesses (app_guess t c) cs = t
      rw [hstep t c h, ih t h]
  have hgo_of : ∀ t : GameState, status t ≠ GameStatus.InProgress → t.game_over = true := by
    intro t h
    cases hg : t.game_over with
    | true => rfl
    | false =>
      exfalso
      apply h
      unfold status
      rw [hg]
      simp
  constructor
  · intro hw
    have hgo : s.game_over = true := hgo_of s (by rw [hw]; decide)
    rw [main letters s hgo, hw]
  · intro hl
    have hgo : s.game_over = true := hgo_of s (by rw [hl]; decide)
    rw [main letters s hgo, hl]

/-- Witness for C3: the won session for PYTHON stays won after two more
guesses. -/
theorem C3_status_monotonic_witness :
    status (apply_guesses
      (apply_guesses (initial_state pySecret) ['P', 'Y', 'T', 'H', 'O', 'N'])
      ['Q', 'Z']) = GameStatus.Won :=
  (C3_status_monotonic
      (apply_guesses (initial_state pySecret) ['P', 'Y', 'T', 'H', 'O', 'N'])
      ['Q', 'Z']).1 (by decide)

/-- C4: at every reachable state, the misses list holds exactly the
guessed letters that do not occur in the secret, each once, and its length
never exceeds 6. -/
theorem C4_misses_characterization (secret : List Char) (s : GameState)
    (hsec : ValidSecret secret) (hr : Reachable secret s) :
    s.incorrect_guesses.Nodup ∧
    (∀ c, c ∈ s.incorrect_guesses ↔ (c ∈ s.guessed_letters ∧ c ∉ s.secret_word)) ∧
    s.incorrect_guesses.length ≤ 6 := by
  have hne : secret ≠ [] := by
    intro h
    rw [h] at hsec
    exact absurd hsec.1 (by decide)
  have hinv := reachable_inv secret s hne hr
  exact ⟨hinv.miss_nodup, hinv.miss_iff, hinv.miss_le⟩

/-- Witness for C4 after one wrong guess against PYTHON. -/
theorem C4_misses_characterization_witness :
    (app_guess (initial_state pySecret) 'Q').incorrect_guesses.Nodup ∧
    (∀ c, c ∈ (app_guess (initial_state pySecret) 'Q').incorrect_guesses ↔
      (c ∈ (app_guess (initial_state pySecret) 'Q').guessed_letters ∧
        c ∉ (app_guess (initial_state pySecret) 'Q').secret_word)) ∧
    (app_guess (initial_state pySecret) 'Q').incorrect_guesses.length ≤ 6 :=
  C4_misses_characterization pySecret (app_guess (initial_state pySecret) 'Q')
    (by decide) (Reachable.step _ 'Q' Reachable.init)

/-- C10: guessing is case-insensitive at the public interface: a lowercase
letter produces exactly the state its uppercase counterpart produces,
because `make_guess` uppercases its argument first. -/
theorem C10_case_insensitive (s : GameState) (letter : Char)
    (_hlow : letter.isLower = true) :
    make_guess s letter = make_guess s letter.toUpper := by
  rw [make_guess_eq, make_guess_eq, toUpper_toUpper]

/-- Witness for C10: guessing p equals guessing P. -/
theorem C10_case_insensitive_witness :
    make_guess (initial_state pySecret) 'p' =
      make_guess (initial_state pySecret) 'p'.toUpper :=
  C10_case_insensitive (initial_state pySecret) 'p' (by decide)

/-- The fixed static fallback word list (hangman.py lines 126 and 133; the
same literal appears in both the invalid-word branch and the exception
branch). -/
def fallback_words : List (List Char) :=
  [['P', 'Y', 'T', 'H', 'O', 'N'],
   ['H', 'A', 'N', 'G', 'M', 'A', 'N'],
   ['C', 'O', 'M', 'P', 'U', 'T', 'E', 'R'],
   ['E', 'L', 'E', 'P', 'H', 'A', 'N', 'T'],
   ['M', 'O', 'U', 'N', 'T', 'A', 'I', 'N']]

/-- Python's `str.strip`: drop leading and trailing whitespace. -/
def pyStrip (l : List Char) : List Char :=
  ((l.dropWhile Char.isWhitespace).reverse.dropWhile Char.isWhitespace).reverse

/-- Line 118: `re.sub` removing every character outside A–Z from the
stripped, uppercased response content. -/
def sanitize (content : List Char) : List Char :=
  ((pyStrip content).map Char.toUpper).filter
    (fun c => decide ('A' ≤ c) && decide (c ≤ 'Z'))

/-- Embeds `random.choice` drawing from a list, the random draw supplied as a
numeric seed. -/
def random_choice (k : Nat) (l : List (List Char)) : List Char :=
  l.getD (k % l.length) []

/-- Embeds `generate_word_with_ai` (hangman.py lines 90–134) with the external
LLM call and the random generator as parameters: `response` is `none` when
the call (or anything else in the `try` block) raises, and `some content`
when it returns a message with that content; `k` seeds `random.choice`.
The code sanitizes the content and keeps it when its length lies in 5–10;
otherwise, and on any exception, it falls back to a random member of the
fixed list.  The embedded function is total: the `except` clause absorbs
every exception. -/
def generate_word_with_ai (response : Option (List Char)) (k : Nat) : List Char :=
  match response with
  | some content =>
      let word := sanitize content
      if 5 ≤ word.length ∧ word.length ≤ 10 then word
      else random_choice k fallback_words
  | none => random_choice k fallback_words

/-- A random choice from the fallback list is a member of it. -/
theorem random_choice_mem (k : Nat) :
    random_choice k fallback_words ∈ fallback_words := by
  have h : k % fallback_words.length < fallback_words.length :=
    Nat.mod_lt _ (by decide)
  unfold random_choice
  rw [List.getD_eq_getElem?_getD, List.getElem?_eq_getElem h, Option.getD_some]
  exact List.getElem_mem h

/-- C5: whenever the external generation call raises, the returned word is
a member of the fixed static fallback list; the exception never reaches
the caller (the exception branch of the embedding is the `none` case and
the function is total). -/
theorem C5_fallback_on_exception (k : Nat) :
    generate_word_with_ai none k ∈ fallback_words :=
  random_choice_mem k

/-- The word-source contract of spec §4.2: only uppercase letters A–Z,
length between 5 and 10. -/
def WellFormedWord (w : List Char) : Prop :=
  (∀ c ∈ w, 'A' ≤ c ∧ c ≤ 'Z') ∧ 5 ≤ w.length ∧ w.length ≤ 10

instance : DecidablePred WellFormedWord := fun _ =>
  inferInstanceAs (Decidable (_ ∧ _ ∧ _))

/-- C6: for every outcome of the external generation call — an exception,
or a returned message with arbitrary (possibly malformed) content — the
word returned by `generate_word_with_ai` consists only of uppercase
letters and has length between 5 and 10 inclusive. -/
theorem C6_word_well_formed (response : Option (List Char)) (k : Nat) :
    WellFormedWord (generate_word_with_ai response k) := by
  have hfb : ∀ w ∈ fallback_words, WellFormedWord w := by decide
  cases response with
  | none => exact hfb _ (random_choice_mem k)
  | some content =>
      show WellFormedWord
        (if 5 ≤ (sanitize content).length ∧ (sanitize content).length ≤ 10
         then sanitize content else random_choice k fallback_words)
      by_cases h : 5 ≤ (sanitize content).length ∧ (sanitize content).length ≤ 10
      · rw [if_pos h]
        refine ⟨?_, h.1, h.2⟩
        intro c hc
        have hpred := (List.mem_filter.mp hc).2
        simp only [Bool.and_eq_true, decide_eq_true_eq] at hpred
        exact hpred
      · rw [if_neg h]
        exact hfb _ (random_choice_mem k)

end Hangman

namespace SearchAgent

/-- A tool invocation request carried by an assistant message: tool name
plus argument payload (one element of `AIMessage.tool_calls`). -/
structure ToolCall where
  name : String
  args : String
deriving DecidableEq

/-- A transcript message: the three kinds of turns the agent state holds
(`HumanMessage`, `AIMessage` with its `tool_calls`, `ToolMessage`). -/
inductive Message where
  | human (content : String)
  | ai (content : String) (tool_calls : List ToolCall)
  | tool (content : String)
deriving DecidableEq

/-- Outcome of Python `eval` on one expression: a value rendered as a
string, or a raised exception with its message.  `eval` itself is an
external black box of the embedding, supplied as a parameter. -/
inductive PyEvalOutcome where
  | ok (value : String)
  | raises (msg : String)

/-- Embeds `calculator` (search.py lines 43–51) with `eval` abstracted by
`pyEval`: a successful evaluation is interpolated into a result string,
and any exception is caught and rendered as an error observation.  The
embedded function is total: nothing propagates to the caller. -/
def calculator (pyEval : String → PyEvalOutcome) (expression : String) : String :=
  match pyEval expression with
  | PyEvalOutcome.ok v => "The result is: " ++ v
  | PyEvalOutcome.raises m => "Error calculating: " ++ m

/-- Embeds `get_current_time` (search.py lines 54–58) with the wall clock
abstracted: `now` is the timestamp string `datetime.now().strftime`
produces. -/
def get_current_time (now : String) : String :=
  "Current date and time: " ++ now

/-- Embeds `should_continue` (search.py lines 105–110): route to the tools node
when the last message carries a nonempty `tool_calls` attribute, end
otherwise.  Human and tool messages have no `tool_calls` attribute, so
the `hasattr` conjunct fails on them. -/
def should_continue (messages : List Message) : String :=
  match messages.getLast? with
  | some (Message.ai _ tool_calls) => if tool_calls.isEmpty then "end" else "tools"
  | _ => "end"

/-- The tool calls of the last message: what the `ToolNode` executes when
the graph routes to it. -/
def lastToolCalls (messages : List Message) : List ToolCall :=
  match messages.getLast? with
  | some (Message.ai _ tool_calls) => tool_calls
  | _ => []

/-- The content of the last message: what `run_query` extracts from the
final state (`result["messages"][-1].content`, search.py line 145). -/
def lastContent (messages : List Message) : String :=
  match messages.getLast? with
  | some (Message.human c) => c
  | some (Message.ai c _) => c
  | some (Message.tool c) => c
  | none => ""

/-- The two nodes of the graph built by `create_agent`. -/
inductive Node where
  | agent
  | tools

/-- LangGraph raises `GraphRecursionError` when a run needs more
super-steps than its `recursion_limit`; the spec names this failure
`BudgetExceeded`. -/
inductive RunError where
  | BudgetExceeded
deriving DecidableEq

/-- The `ToolNode` dispatch over the tool list of `create_agent`
(search.py line 77): tool name to execution, with the web-search
collaborator and the clock abstracted (`search`, `now`) and `eval`
abstracted (`pyEval`).  The LLM is constrained by `bind_tools` to the
three declared names; the embedding maps any other name to an error
observation, as `ToolNode` reports invalid tool names as error messages. -/
def execTool (search : String → String) (pyEval : String → PyEvalOutcome)
    (now : String) (tc : ToolCall) : String :=
  if tc.name = "tavily_search_results_json" then search tc.args
  else if tc.name = "calculator" then calculator pyEval tc.args
  else if tc.name = "get_current_time" then get_current_time now
  else "Error: " ++ tc.name ++ " is not a valid tool"

/-- The compiled two-node graph of `create_agent` (search.py lines
112–131), driven as LangGraph's Pregel loop drives it under a recursion
limit: execution starts at the `agent` node and every node execution
consumes one unit of the remaining step budget (`fuel`).  The `agent`
node appends the decision of the reasoning collaborator (`decideStep`,
abstracting the LLM call in `agent_node`: content and tool calls of the
returned `AIMessage`); the conditional edge evaluates `should_continue`
and either ends the run or hands over to `tools`; the `tools` node
executes every requested call in order via `exec` and appends one tool
message per call; the fixed edge returns to `agent`.  A run that needs a
step when the budget is exhausted fails with the budget error.  The
second component of the result is the number of node steps executed. -/
def runGraph (decideStep : List Message → String × List ToolCall)
    (exec : ToolCall → String) :
    Node → List Message → Nat → Except RunError (List Message) × Nat
  | _, _, 0 => (Except.error RunError.BudgetExceeded, 0)
  | Node.agent, messages, fuel + 1 =>
      let d := decideStep messages
      let messages' := messages ++ [Message.ai d.1 d.2]
      if should_continue messages' = "tools" then
        let r := runGraph decideStep exec Node.tools messages' fuel
        (r.1, r.2 + 1)
      else
        (Except.ok messages', 1)
  | Node.tools, messages, fuel + 1 =>
      let results := (lastToolCalls messages).map (fun tc => Message.tool (exec tc))
      let r := runGraph decideStep exec Node.agent (messages ++ results) fuel
      (r.1, r.2 + 1)

/-- Embeds `run_query` (search.py lines 134–147): invoke the compiled graph on a
single human message under `recursion_limit 10` and extract the content of
the final message; a `GraphRecursionError` propagates to the caller as the
budget failure. -/
def run_query (decideStep : List Message → String × List ToolCall)
    (exec : ToolCall → String) (query : String) : Except RunError String :=
  match (runGraph decideStep exec Node.agent [Message.human query] 10).1 with
  | Except.ok messages => Except.ok (lastContent messages)
  | Except.error e => Except.error e

/-- Unfolding equation for the `agent` node with budget remaining. -/
theorem runGraph_agent_eq (decideStep : List Message → String × List ToolCall)
    (exec : ToolCall → String) (messages : List Message) (fuel : Nat) :
    runGraph decideStep exec Node.agent messages (fuel + 1) =
      if should_continue
          (messages ++ [Message.ai (decideStep messages).1 (decideStep messages).2]) =
          "tools" then
        ((runGraph decideStep exec Node.tools
            (messages ++ [Message.ai (decideStep messages).1 (decideStep messages).2])
            fuel).1,
         (runGraph decideStep exec Node.tools
            (messages ++ [Message.ai (decideStep messages).1 (decideStep messages).2])
            fuel).2 + 1)
      else
        (Except.ok
          (messages ++ [Message.ai (decideStep messages).1 (decideStep messages).2]),
         1) := rfl

/-- Unfolding equation for the `tools` node with budget remaining. -/
theorem runGraph_tools_eq (decideStep : List Message → String × List ToolCall)
    (exec : ToolCall → String) (messages : List Message) (fuel : Nat) :
    runGraph decideStep exec Node.tools messages (fuel + 1) =
      ((runGraph decideStep exec Node.agent
          (messages ++ (lastToolCalls messages).map (fun tc => Message.tool (exec tc)))
          fuel).1,
       (runGraph decideStep exec Node.agent
          (messages ++ (lastToolCalls messages).map (fun tc => Message.tool (exec tc)))
          fuel).2 + 1) := rfl

/-- Out of budget, every node fails with the budget error at once. -/
theorem runGraph_zero_eq (decideStep : List Message → String × List ToolCall)
    (exec : ToolCall → String) (node : Node) (messages : List Message) :
    runGraph decideStep exec node messages 0 =
      (Except.error RunError.BudgetExceeded, 0) := by
  cases node <;> rfl

/-- Routing after appending an assistant message looks only at that
message's tool calls. -/
theorem should_continue_concat_ai (messages : List Message) (c : String)
    (tcs : List ToolCall) :
    should_continue (messages ++ [Message.ai c tcs]) =
      if tcs.isEmpty then "end" else "tools" := by
  unfold should_continue
  rw [List.getLast?_concat]

/-- The tool node executes exactly the calls of the just-appended
assistant message. -/
theorem lastToolCalls_concat_ai (messages : List Message) (c : String)
    (tcs : List ToolCall) :
    lastToolCalls (messages ++ [Message.ai c tcs]) = tcs := by
  unfold lastToolCalls
  rw [List.getLast?_concat]

/-- A decision without tool calls ends the run at once, with the decision
appended as the final message. -/
theorem runGraph_finish (decideStep : List Message → String × List ToolCall)
    (exec : ToolCall → String) (messages : List Message) (content : String)
    (fuel : Nat) (hdec : decideStep messages = (content, [])) :
    runGraph decideStep exec Node.agent messages (fuel + 1) =
      (Except.ok (messages ++ [Message.ai content []]), 1) := by
  rw [runGraph_agent_eq]
  simp only [hdec]
  rw [should_continue_concat_ai]
  simp

/-- A decision with tool calls runs the tools node next: the calls are
executed in order, their observations are appended after the decision,
and the loop is back at the agent node with two budget units consumed. -/
theorem runGraph_request (decideStep : List Message → String × List ToolCall)
    (exec : ToolCall → String) (messages : List Message) (content : String)
    (tcs : List ToolCall) (fuel : Nat)
    (hdec : decideStep messages = (content, tcs)) (htcs : tcs ≠ []) :
    (runGraph decideStep exec Node.agent messages (fuel + 1 + 1)).1 =
      (runGraph decideStep exec Node.agent
        (messages ++ [Message.ai content tcs] ++
          tcs.map (fun tc => Message.tool (exec tc))) fuel).1 := by
  have hsc : should_continue (messages ++ [Message.ai content tcs]) = "tools" := by
    rw [should_continue_concat_ai, if_neg]
    intro hempty
    exact htcs (List.isEmpty_iff.mp hempty)
  rw [runGraph_agent_eq]
  simp only [hdec]
  rw [if_pos hsc, runGraph_tools_eq]
  rw [lastToolCalls_concat_ai]

/-- The number of node steps a run executes never exceeds its budget. -/
theorem runGraph_steps_le (decideStep : List Message → String × List ToolCall)
    (exec : ToolCall → String) :
    ∀ (fuel : Nat) (node : Node) (messages : List Message),
      (runGraph decideStep exec node messages fuel).2 ≤ fuel := by
  intro fuel
  induction fuel with
  | zero =>
      intro node messages
      rw [runGraph_zero_eq]
  | succ f ih =>
      intro node messages
      cases node with
      | agent =>
          rw [runGraph_agent_eq]
          by_cases hsc : should_continue
              (messages ++
                [Message.ai (decideStep messages).1 (decideStep messages).2]) = "tools"
          · rw [if_pos hsc]
            have h := ih Node.tools
              (messages ++ [Message.ai (decideStep messages).1 (decideStep messages).2])
            show (runGraph decideStep exec Node.tools
              (messages ++ [Message.ai (decideStep messages).1 (decideStep messages).2])
              f).2 + 1 ≤ f + 1
            omega
          · rw [if_neg hsc]
            show 1 ≤ f + 1
            omega
      | tools =>
          rw [runGraph_tools_eq]
          have h := ih Node.agent
            (messages ++ (lastToolCalls messages).map (fun tc => Message.tool (exec tc)))
          show (runGraph decideStep exec Node.agent
            (messages ++ (lastToolCalls messages).map (fun tc => Message.tool (exec tc)))
            f).2 + 1 ≤ f + 1
          omega

/-- Under a decision stub that always requests at least one action, every
run consumes its whole budget and fails with the budget error. -/
theorem runGraph_always_request (decideStep : List Message → String × List ToolCall)
    (exec : ToolCall → String)
    (h : ∀ messages, (decideStep messages).2 ≠ []) :
    ∀ (fuel : Nat) (node : Node) (messages : List Message),
      runGraph decideStep exec node messages fuel =
        (Except.error RunError.BudgetExceeded, fuel) := by
  intro fuel
  induction fuel with
  | zero =>
      intro node messages
      rw [runGraph_zero_eq]
  | succ f ih =>
      intro node messages
      cases node with
      | agent =>
          have hsc : should_continue
              (messages ++
                [Message.ai (decideStep messages).1 (decideStep messages).2]) = "tools" := by
            rw [should_continue_concat_ai, if_neg]
            intro hempty
            exact h messages (List.isEmpty_iff.mp hempty)
          rw [runGraph_agent_eq, if_pos hsc, ih Node.tools]
      | tools =>
          rw [runGraph_tools_eq, ih Node.agent]

/-- C7: the calculate tool evaluates its expression through the external
evaluator; whenever the evaluation fails, the tool returns the error
observation as an ordinary string (the embedded tool is total, so nothing
is raised out of the loop), and in the routing loop that observation is
folded into the transcript handed to the next decision step. -/
theorem C7_calculator_error_observation
    (pyEval : String → PyEvalOutcome) (search : String → String) (now : String)
    (decideStep : List Message → String × List ToolCall)
    (messages : List Message) (expression m content : String) (fuel : Nat)
    (heval : pyEval expression = PyEvalOutcome.raises m)
    (hdec : decideStep messages = (content, [ToolCall.mk "calculator" expression])) :
    calculator pyEval expression = "Error calculating: " ++ m ∧
    (runGraph decideStep (execTool search pyEval now) Node.agent messages
        (fuel + 1 + 1)).1 =
      (runGraph decideStep (execTool search pyEval now) Node.agent
        (messages ++ [Message.ai content [ToolCall.mk "calculator" expression]] ++
          [Message.tool ("Error calculating: " ++ m)]) fuel).1 ∧
    Message.tool ("Error calculating: " ++ m) ∈
      messages ++ [Message.ai content [ToolCall.mk "calculator" expression]] ++
        [Message.tool ("Error calculating: " ++ m)] := by
  have hcalc : calculator pyEval expression = "Error calculating: " ++ m := by
    unfold calculator
    rw [heval]
  have hexec : execTool search pyEval now (ToolCall.mk "calculator" expression) =
      "Error calculating: " ++ m := by
    show (if "calculator" = "tavily_search_results_json" then search expression
      else if "calculator" = "calculator" then calculator pyEval expression
      else if "calculator" = "get_current_time" then get_current_time now
      else "Error: " ++ "calculator" ++ " is not a valid tool") = _
    rw [if_neg (by decide), if_pos rfl]
    exact hcalc
  refine ⟨hcalc, ?_, by simp⟩
  have hreq := runGraph_request decideStep (execTool search pyEval now) messages
    content [ToolCall.mk "calculator" expression] fuel hdec (by simp)
  rw [hreq]
  simp only [List.map_cons, List.map_nil]
  rw [hexec]

/-- Witness for C7: a stubbed evaluator that raises on the non-arithmetic
input, a decision requesting exactly that calculation. -/
theorem C7_calculator_error_observation_witness :
    calculator (fun _ => PyEvalOutcome.raises "invalid syntax") "not math" =
      "Error calculating: " ++ "invalid syntax" ∧
    (runGraph (fun _ => ("", [ToolCall.mk "calculator" "not math"]))
        (execTool (fun _ => "") (fun _ => PyEvalOutcome.raises "invalid syntax") "")
        Node.agent [Message.human "calc"] (8 + 1 + 1)).1 =
      (runGraph (fun _ => ("", [ToolCall.mk "calculator" "not math"]))
        (execTool (fun _ => "") (fun _ => PyEvalOutcome.raises "invalid syntax") "")
        Node.agent
        ([Message.human "calc"] ++
          [Message.ai "" [ToolCall.mk "calculator" "not math"]] ++
          [Message.tool ("Error calculating: " ++ "invalid syntax")]) 8).1 ∧
    Message.tool ("Error calculating: " ++ "invalid syntax") ∈
      [Message.human "calc"] ++
        [Message.ai "" [ToolCall.mk "calculator" "not math"]] ++
        [Message.tool ("Error calculating: " ++ "invalid syntax")] :=
  C7_calculator_error_observation (fun _ => PyEvalOutcome.raises "invalid syntax")
    (fun _ => "") "" (fun _ => ("", [ToolCall.mk "calculator" "not math"]))
    [Message.human "calc"] "not math" "invalid syntax" "" 8 rfl rfl

/-- C8: at any decision point of the routing loop, a decision carrying no
tool calls is treated as finish — the loop ends and returns that
decision's content — while a decision carrying tool calls has every call
executed in request order and the observations appended to the transcript
before the next decision step runs. -/
theorem C8_routing_policy (decideStep : List Message → String × List ToolCall)
    (exec : ToolCall → String) (messages : List Message)
    (content : String) (tcs : List ToolCall) (fuel : Nat)
    (hdec : decideStep messages = (content, tcs)) :
    (tcs = [] →
      runGraph decideStep exec Node.agent messages (fuel + 1) =
        (Except.ok (messages ++ [Message.ai content []]), 1) ∧
      lastContent (messages ++ [Message.ai content []]) = content) ∧
    (tcs ≠ [] →
      (runGraph decideStep exec Node.agent messages (fuel + 1 + 1)).1 =
        (runGraph decideStep exec Node.agent
          (messages ++ [Message.ai content tcs] ++
            tcs.map (fun tc => Message.tool (exec tc))) fuel).1) := by
  constructor
  · intro h
    subst h
    refine ⟨runGraph_finish decideStep exec messages content fuel hdec, ?_⟩
    unfold lastContent
    rw [List.getLast?_concat]
  · intro h
    exact runGraph_request decideStep exec messages content tcs fuel hdec h

/-- Witness for C8 on the finish branch: a decision with no tool calls
ends the loop and its content is returned. -/
theorem C8_routing_policy_witness :
    runGraph (fun _ => ("All done", [])) (fun _ => "") Node.agent
        [Message.human "hi"] (4 + 1) =
      (Except.ok [Message.human "hi", Message.ai "All done" []], 1) ∧
    lastContent [Message.human "hi", Message.ai "All done" []] = "All done" :=
  (C8_routing_policy (fun _ => ("All done", [])) (fun _ => "")
    [Message.human "hi"] "All done" [] 4 rfl).1 rfl

/-- C9: for every decision stub the loop performs at most 10 node steps,
and a stub that always requests another action drives the run through the
full budget of 10, after which `run_query` fails with the distinct budget
error instead of looping indefinitely or returning a partial answer. -/
theorem C9_step_budget (decideStep : List Message → String × List ToolCall)
    (exec : ToolCall → String) (query : String) :
    (runGraph decideStep exec Node.agent [Message.human query] 10).2 ≤ 10 ∧
    ((∀ messages, (decideStep messages).2 ≠ []) →
      run_query decideStep exec query = Except.error RunError.BudgetExceeded ∧
      (runGraph decideStep exec Node.agent [Message.human query] 10).2 = 10) := by
  refine ⟨runGraph_steps_le decideStep exec 10 Node.agent [Message.human query], ?_⟩
  intro h
  have hrun := runGraph_always_request decideStep exec h 10 Node.agent
    [Message.human query]
  constructor
  · unfold run_query
    rw [hrun]
  · rw [hrun]

/-- Witness for C9: a decision stub that always requests one more
calculation exhausts the budget and the query fails with the budget
error. -/
theorem C9_step_budget_witness :
    run_query (fun _ => ("", [ToolCall.mk "calculator" "1+1"]))
        (fun _ => "The result is: 2") "loop forever" =
      Except.error RunError.BudgetExceeded ∧
    (runGraph (fun _ => ("", [ToolCall.mk "calculator" "1+1"]))
        (fun _ => "The result is: 2") Node.agent
        [Message.human "loop forever"] 10).2 = 10 :=
  (C9_step_budget (fun _ => ("", [ToolCall.mk "calculator" "1+1"]))
    (fun _ => "The result is: 2") "loop forever").2 (fun _ => by simp)

end SearchAgent
